import Mathlib

/-!
Verification development for the MathML-to-docx equation converter
(`src/utils/DocxMathConverter.ts`).

The TypeScript source is shallowly embedded below:

* the parsed MathML DOM fed to `walkNode` becomes the inductive `Elem`
  (tag, attribute list, direct text, ordered element children; a custom
  `ElemList` type is used instead of `List Elem` so that all the walkers
  are plain structural recursions that the kernel can evaluate);
* the docx output components (`MathRun`, `MathFraction`, `MathNary`,
  `MathDelimiter`, ...) become the inductive `ONode`;
* fallible code is modelled with `Except String`: a `.error` value models
  a JavaScript exception escaping the function.

One point of the runtime semantics deserves emphasis, because several
claims hinge on it.  In the `mrow` case of `walkNode`, the stack frames
(`stack[i].children`) only ever receive *already converted* docx output
components: `MathDelimiter` objects (lines 346/368) and the results of
`walkNode(child)` (lines 380/387).  Yet all three frame-closing paths
(lines 340, 362, 394) call `walkChildren(top.children)` on that array.
`walkChildren` calls `walkNode` on each item, and `walkNode` immediately
evaluates `node.tagName.toLowerCase()`.  The docx `XmlComponent` class
has no `tagName` property, so for every non-empty frame this throws
`TypeError: undefined has no toLowerCase` out of `mathmlToDocx`; for an
empty frame the loop body never runs and `[]` is returned.  This runtime
behaviour is modelled exactly by `walkFrameChildren` below.
-/

mutual

/-- A parsed MathML DOM element: tag name, attributes, the text directly
contained in the element, and its element children.  (`Element.children`
in the DOM yields only element children; `textContent` concatenates all
descendant text, which `textContent` below models with the direct text
first.) -/
inductive Elem where
  | mk (tag : String) (attrs : List (String × String)) (text : String) (children : ElemList)

inductive ElemList where
  | nil
  | cons (hd : Elem) (tl : ElemList)

end

/-- Convert a plain list of elements to `ElemList` (for writing inputs). -/
def elist : List Elem → ElemList
  | [] => .nil
  | e :: es => .cons e (elist es)

/-- The element's tag name. -/
def Elem.tag : Elem → String
  | .mk t _ _ _ => t

/-- The element's attribute list. -/
def Elem.attrs : Elem → List (String × String)
  | .mk _ a _ _ => a

/-- The element's children. -/
def Elem.children : Elem → ElemList
  | .mk _ _ _ c => c

/-- `node.getAttribute(name)`: `none` models the DOM's `null`. -/
def getAttrE (e : Elem) (name : String) : Option String :=
  e.attrs.lookup name

mutual

/-- `node.textContent`: all descendant text, direct text first (the
leaf case is split off so that it reduces without a trailing
`++ ""`). -/
def textContent : Elem → String
  | .mk _ _ t .nil => t
  | .mk _ _ t cs => t ++ textContentList cs

def textContentList : ElemList → String
  | .nil => ""
  | .cons e es => textContent e ++ textContentList es

end

/-- The character class of the regex in `isIntegral`:
`/[∫∬∭∮∯∰∱∲∳]/`. -/
def integralChars : List Char :=
  ['\u222B', '\u222C', '\u222D', '\u222E', '\u222F',
   '\u2230', '\u2231', '\u2232', '\u2233']

/-- `isIntegral(text)`: the regex `test` is true iff some character of
the string lies in the character class. -/
def isIntegral (text : String) : Bool :=
  text.data.any (fun c => integralChars.contains c)

/-- The character class of the regex in `isSum`:
`/[∑∏∐⋀⋁⋂⋃⨀⨁⨂⨄⨆]/`. -/
def sumChars : List Char :=
  ['\u2211', '\u220F', '\u2210', '\u22C0', '\u22C1', '\u22C2', '\u22C3',
   '\u2A00', '\u2A01', '\u2A02', '\u2A04', '\u2A06']

/-- `isSum(text)`. -/
def isSum (text : String) : Bool :=
  text.data.any (fun c => sumChars.contains c)

/-- The `accents` array of `isAccentChar` (duplicates kept as in the
source; the final literals are `→ ⃗ ^ ˉ ~
˙ ¨`). -/
def accentStrings : List String :=
  ["\u2192", "\u005E", "\u02C6", "\u00AF", "\u02C9", "\u007E", "\u02DC",
   "\u0300", "\u0301", "\u0302", "\u0303", "\u0304", "\u0305", "\u0306",
   "\u0307", "\u0308", "\u030A", "\u030C",
   "\u2192", "\u20D7", "\u005E", "\u02C9", "\u007E", "\u02D9", "\u00A8"]

/-- `s.charCodeAt(0)` for the comparisons in the source: the code of the
first character; for the empty string `charCodeAt` yields `NaN`, whose
comparisons are all false, which `0` reproduces for the codes compared
against (`0x300..0x36F` and `0x2223`). -/
def firstCode (s : String) : Nat :=
  match s.data with
  | [] => 0
  | c :: _ => c.toNat

/-- `isAccentChar(text)`: membership in the accent list, or a single
combining diacritic in `U+0300 – U+036F`. -/
def isAccentChar (text : String) : Bool :=
  accentStrings.contains text ||
    (text.length == 1 && (0x300 ≤ firstCode text && firstCode text ≤ 0x36F))

/-- The `fenceChars` array of `isFence`. -/
def fenceChars : List String :=
  ["(", ")", "[", "]", "\x7b", "\x7d", "|", "\u2016", "\u27E8", "\u27E9", "."]

/-- `toLowerCase()` as applied to tag names, modelled as ASCII
lowercasing (tag names are ASCII; `String.toLower` itself is not
kernel-reducible, which the evaluation proofs below need). -/
def asciiLowerChar (c : Char) : Char :=
  if 'A' ≤ c && c ≤ 'Z' then Char.ofNat (c.toNat + 32) else c

/-- ASCII lowercasing of a string. -/
def asciiToLower (s : String) : String :=
  ⟨s.data.map asciiLowerChar⟩

/-- `isFence(node)`: an `mo` element explicitly marked `fence="true"`,
or whose text is a common fence character. -/
def isFence (e : Elem) : Bool :=
  asciiToLower e.tag == "mo" &&
    (getAttrE e "fence" == some "true" || fenceChars.contains (textContent e))

/-- `isPair(open, close)`. -/
def isPair (op cl : String) : Bool :=
  if op == "(" && cl == ")" then true
  else if op == "[" && cl == "]" then true
  else if op == "\x7b" && cl == "\x7d" then true
  else if op == "\u27E8" && cl == "\u27E9" then true
  else if op == "\u2016" && cl == "\u2016" then true
  else if (op == "|" || op == "\u2223") && (cl == "|" || cl == "\u2223") then true
  else false

/-- `normalizeFence(ch)`: `.` becomes the empty marker and the divides
character `U+2223` becomes `|`. -/
def normalizeFence (ch : String) : String :=
  if ch == "." then ""
  else if firstCode ch == 0x2223 then "|"
  else ch

/-- The `m:limLoc` value passed to the `MathNary` constructor
(`"subSup"` or `"undOvr"`; `noLoc` models an omitted argument). -/
inductive LimLoc where
  | noLoc
  | subSup
  | undOvr

mutual

/-- A docx output component, one constructor per component class built by
the converter: `MathRun`, `MathFraction`, `MathSuperScript`,
`MathSubScript`, `MathSubSuperScript`, `MathRadical` (with and without a
degree, matching its two call sites), `MathLimitUpper`, `MathLimitLower`,
`MathAccent`, `MathNary` (operator character, limit location, `m:sub`,
`m:sup` and base-element children), `MathDelimiter` (begin marker, end
marker, body) and `MathMatrix` (rows of cells of content). -/
inductive ONode where
  | run (text : String)
  | frac (num den : ONodeList)
  | supScr (base sup : ONodeList)
  | subScr (base sub : ONodeList)
  | subSupScr (base sub sup : ONodeList)
  | radical (base : ONodeList)
  | radicalDeg (base degree : ONodeList)
  | limitUpper (base limit : ONodeList)
  | limitLower (base limit : ONodeList)
  | accent (base : ONodeList) (chr : String)
  | nary (chr : String) (loc : LimLoc) (sub sup body : ONodeList)
  | delim (begChr endChr : String) (body : ONodeList)
  | matrix (rows : MRowList)

inductive ONodeList where
  | nil
  | cons (hd : ONode) (tl : ONodeList)

inductive MCellList where
  | nil
  | cons (cell : ONodeList) (tl : MCellList)

inductive MRowList where
  | nil
  | cons (row : MCellList) (tl : MRowList)

end

/-- Convert a plain list of output nodes to `ONodeList`. -/
def olist : List ONode → ONodeList
  | [] => .nil
  | n :: ns => .cons n (olist ns)

/-- List concatenation on `ONodeList` (JS `concat`). -/
def ONodeList.append : ONodeList → ONodeList → ONodeList
  | .nil, l => l
  | .cons x tl, l => .cons x (tl.append l)

/-- JS `array.push(item)`. -/
def ONodeList.push (l : ONodeList) (n : ONode) : ONodeList :=
  l.append (.cons n .nil)

/-- A one-element output list. -/
def single (n : ONode) : ONodeList :=
  .cons n .nil

/-- The zero-width space `"​"` used by the `MathNary` constructor to
hide the placeholder box of an empty base. -/
def zwsp : String := "​"

/-- The body of a `MathNary` node (its `m:e` children); `.nil` on any
other node. -/
def naryBody : ONode → ONodeList
  | .nary _ _ _ _ body => body
  | _ => .nil

/-- The `MathNary` constructor: if no children are supplied for the base
element, a zero-width-space run is inserted instead. -/
def mathNary (chr : String) (loc : LimLoc) (sub sup body : ONodeList) : ONode :=
  .nary chr loc sub sup
    (match body with
     | .nil => single (.run zwsp)
     | b => b)

/-- `appendToContext`'s dive into an `MathNary` base
(`getLastBaseChild` / `addChildToBase`): if the last base child is itself
a `MathNary`, descend into it, otherwise append the item at the end of
the base.  The argument is the base-element child list of a `MathNary`. -/
def naryBodyAppend : ONodeList → ONode → ONodeList
  | .nil, item => single item
  | .cons x .nil, item =>
    match x with
    | .nary c l s p b => single (.nary c l s p (naryBodyAppend b item))
    | _ => .cons x (single item)
  | .cons x tl, item => .cons x (naryBodyAppend tl item)

/-- `appendToContext(container, item)` (mrow resolver, source lines
254–281): if the container's last node is a `MathNary`, the item is
appended into the deepest trailing `MathNary` base instead of being
pushed as a sibling. -/
def appendToContext : ONodeList → ONode → ONodeList
  | .nil, item => single item
  | .cons x .nil, item =>
    match x with
    | .nary c l s p b => single (.nary c l s p (naryBodyAppend b item))
    | _ => .cons x (single item)
  | .cons x tl, item => .cons x (appendToContext tl item)

/-- `nodes.forEach(n => appendToContext(target, n))`. -/
def foldAppend : ONodeList → ONodeList → ONodeList
  | acc, .nil => acc
  | acc, .cons n tl => foldAppend (appendToContext acc n) tl

/-- An open fence frame of the mrow resolver's stack (the `startNode`
field of the source is never read and is omitted). -/
structure Frame where
  openChar : String
  children : ONodeList

/-- The mrow resolver's state: the top-level `result` array and the
fence `stack` (head = top of stack). -/
structure MrowState where
  result : ONodeList
  stack : List Frame

/-- The runtime behaviour of `walkChildren(top.children)` on a stack
frame's accumulated children.  Frames only ever accumulate already
converted docx components (`MathDelimiter`s and `walkNode` results), and
`walkNode` applied to a docx `XmlComponent` evaluates
`node.tagName.toLowerCase()` where `tagName` is `undefined`, throwing a
`TypeError`.  Hence: an empty frame yields `[]`, a non-empty frame
throws. -/
def walkFrameChildren : ONodeList → Except String ONodeList
  | .nil => .ok .nil
  | .cons _ _ => .error "TypeError: node.tagName is undefined"

/-- The body of the auto-close loop of the mismatched-close handling
(source lines 331–351), with the top frame split off so the recursion is
structural: pop frames until one pairing with `char` is on top, closing
each popped frame as a `Delimiter` with empty end marker and pushing it
into the next frame (plain `push`, not `appendToContext`) or the
top-level result. -/
def autoCloseAux (char : String) : Frame → List Frame → ONodeList →
    Except String (List Frame × ONodeList)
  | top, rest, result =>
    if isPair top.openChar char then .ok (top :: rest, result)
    else do
      let body ← walkFrameChildren top.children
      let d := ONode.delim (normalizeFence top.openChar) "" body
      match rest with
      | t2 :: r2 => autoCloseAux char { t2 with children := t2.children.push d } r2 result
      | [] => .ok ([], result.push d)

/-- The auto-close `while` loop itself (runs only on a non-empty stack in
the source; an empty stack leaves the state unchanged). -/
def autoClose (char : String) : List Frame → ONodeList → Except String (List Frame × ONodeList)
  | [], result => .ok ([], result)
  | top :: rest, result => autoCloseAux char top rest result

/-- The body of the end-of-row loop (source lines 392–401), with the top
frame split off so the recursion is structural: close every still-open
frame with an empty end marker, attaching each delimiter via
`appendToContext`. -/
def closeRemainingAux : Frame → List Frame → ONodeList → Except String ONodeList
  | top, rest, result => do
    let body ← walkFrameChildren top.children
    let d := ONode.delim (normalizeFence top.openChar) "" body
    match rest with
    | t2 :: r2 => closeRemainingAux { t2 with children := appendToContext t2.children d } r2 result
    | [] => .ok (appendToContext result d)

/-- The end-of-row `while` loop itself. -/
def closeRemaining : List Frame → ONodeList → Except String ONodeList
  | [], result => .ok result
  | top :: rest, result => closeRemainingAux top rest result

/-- Append walked output nodes of one sibling to the current context:
the top frame's accumulator if the stack is non-empty, else the
top-level result, each node via `appendToContext`. -/
def appendNodes (st : MrowState) (nodes : ONodeList) : MrowState :=
  match st.stack with
  | top :: rest => ⟨st.result, { top with children := foldAppend top.children nodes } :: rest⟩
  | [] => ⟨foldAppend st.result nodes, []⟩

/-- One iteration of the mrow resolver's `for` loop (source lines
283–389) for `child`.  `walked` is `walkNode(child)`; it is passed in as
a value so this step need not recurse (in the branches that do not use
it, `child` is an `mo` element, on which `walkNode` cannot throw). -/
def mrowStep (child : Elem) (walked : Except String ONodeList) (st : MrowState) :
    Except String MrowState :=
  if isFence child then
    let char := textContent child
    let isOpener := ["(", "[", "\x7b", "⟨", "‖"].contains char || char == "l"
    let isCloser := [")", "]", "\x7d", "⟩"].contains char
    let isAmbiguous := ["|", "‖", ".", "∣"].contains char
    let action : String :=
      if isOpener then "open"
      else if isCloser then "close"
      else if isAmbiguous then
        match st.stack with
        | top :: _ => if top.openChar == char then "close" else "open"
        | [] => "open"
      else "text"
    do
      -- Mismatched-close pre-pass (source lines 318–354)
      let st ←
        if action == "close" then
          match st.stack with
          | top :: _ =>
            if !isPair top.openChar char && !isAmbiguous then
              if st.stack.any (fun f => isPair f.openChar char) then do
                let (stack', result') ← autoClose char st.stack st.result
                pure (⟨result', stack'⟩ : MrowState)
              else pure st
            else pure st
          | [] => pure st
        else pure st
      if action == "open" then
        pure ⟨st.result, ⟨char, .nil⟩ :: st.stack⟩
      else if action == "close" then
        match st.stack with
        | top :: rest => do
          let body ← walkFrameChildren top.children
          let d := ONode.delim (normalizeFence top.openChar) (normalizeFence char) body
          match rest with
          | t2 :: r2 => pure ⟨st.result, { t2 with children := appendToContext t2.children d } :: r2⟩
          | [] => pure ⟨appendToContext st.result d, []⟩
        | [] => do
          -- Unmatched close with empty stack: walk the fence and push
          -- its nodes onto the result (plain pushes, lines 369–376).
          let nodes ← walked
          pure ⟨st.result.append nodes, []⟩
      else do
        let nodes ← walked
        pure (appendNodes st nodes)
  else do
    let nodes ← walked
    pure (appendNodes st nodes)

mutual

/-- `walkNode(node)` (source lines 232–575), dispatching on
`node.tagName.toLowerCase()`.  A `.error` result models a thrown
JavaScript exception; the `TypeError` cases correspond to property
accesses on `undefined` produced by array destructuring of missing
children (`base.textContent`, `over.tagName`). -/
def walkNode : Elem → Except String ONodeList
  | .mk tag attrs text children =>
    match asciiToLower tag with
    | "math" => walkChildren children
    | "mstyle" => walkChildren children
    | "mrow" => do
      let st ← mrowLoop children ⟨.nil, []⟩
      closeRemaining st.stack st.result
    | "mfenced" => do
      let body ← walkChildren children
      let op := match attrs.lookup "open" with
        | some s => if s == "" then "(" else s
        | none => "("
      let cl := match attrs.lookup "close" with
        | some s => if s == "" then ")" else s
        | none => ")"
      pure (single (.delim op cl body))
    | "mi" | "mn" | "mo" | "mtext" | "ms" =>
      pure (single (.run (textContent (.mk tag attrs text children))))
    | "mfrac" =>
      match children with
      | .cons num (.cons den _) => do
        let n ← walkNode num
        let d ← walkNode den
        pure (single (.frac n d))
      | .cons num .nil => do
        let n ← walkNode num
        pure (single (.frac n .nil))
      | .nil => pure (single (.frac .nil .nil))
    | "msup" =>
      match children with
      | .cons base (.cons sup _) => do
        let b ← walkNode base
        let s ← walkNode sup
        pure (single (.supScr b s))
      | .cons base .nil => do
        let b ← walkNode base
        pure (single (.supScr b .nil))
      | .nil => pure (single (.supScr .nil .nil))
    | "msub" =>
      match children with
      | .cons base (.cons sub _) => do
        let b ← walkNode base
        let s ← walkNode sub
        pure (single (.subScr b s))
      | .cons base .nil => do
        let b ← walkNode base
        pure (single (.subScr b .nil))
      | .nil => pure (single (.subScr .nil .nil))
    | "msubsup" =>
      match children with
      | .cons base rest =>
        let wsub : Except String ONodeList :=
          match rest with
          | .cons sub _ => walkNode sub
          | .nil => pure .nil
        let wsup : Except String ONodeList :=
          match rest with
          | .cons _ (.cons sup _) => walkNode sup
          | _ => pure .nil
        let baseText := textContent base
        if isIntegral baseText then do
          let sb ← wsub
          let sp ← wsup
          pure (single (mathNary baseText .subSup sb sp .nil))
        else if isSum baseText then do
          let sb ← wsub
          let sp ← wsup
          pure (single (mathNary baseText .subSup sb sp .nil))
        else do
          let b ← walkNode base
          let sb ← wsub
          let sp ← wsup
          pure (single (.subSupScr b sb sp))
      | .nil => .error "TypeError: base is undefined"
    | "msqrt" => do
      let b ← walkChildren children
      pure (single (.radical b))
    | "mroot" =>
      match children with
      | .cons base rest => do
        let b ← walkNode base
        let d ← (match rest with
          | .cons deg _ => walkNode deg
          | .nil => pure .nil)
        pure (single (.radicalDeg b d))
      | .nil => pure (single (.radicalDeg .nil .nil))
    | "mover" =>
      match children with
      | .cons base (.cons over _) =>
        let isAcc := asciiToLower over.tag == "mo" &&
          (getAttrE over "accent" == some "true" || isAccentChar (textContent over))
        if isAcc then do
          let b ← walkNode base
          pure (single (.accent b (textContent over)))
        else do
          let b ← walkNode base
          let l ← walkNode over
          pure (single (.limitUpper b l))
      | _ => .error "TypeError: over is undefined"
    | "munder" =>
      match children with
      | .cons base rest => do
        let b ← walkNode base
        let u ← (match rest with
          | .cons un _ => walkNode un
          | .nil => pure .nil)
        pure (single (.limitLower b u))
      | .nil => pure (single (.limitLower .nil .nil))
    | "munderover" =>
      match children with
      | .cons base rest =>
        let wunder : Except String ONodeList :=
          match rest with
          | .cons un _ => walkNode un
          | .nil => pure .nil
        let wover : Except String ONodeList :=
          match rest with
          | .cons _ (.cons ov _) => walkNode ov
          | _ => pure .nil
        let baseText := textContent base
        if isIntegral baseText then do
          let sb ← wunder
          let sp ← wover
          pure (single (mathNary baseText .undOvr sb sp .nil))
        else if isSum baseText then do
          let sb ← wunder
          let sp ← wover
          pure (single (mathNary baseText .undOvr sb sp .nil))
        else do
          let b ← walkNode base
          let o ← wover
          let u ← wunder
          pure (single (.limitLower (single (.limitUpper b o)) u))
      | .nil => .error "TypeError: base is undefined"
    | "mspace" => pure (single (.run " "))
    | "mtable" => do
      let rows ← mapRows children
      pure (single (.matrix rows))
    | _ => walkChildren children

/-- `walkChildren(children)` on DOM elements (source lines 577–583). -/
def walkChildren : ElemList → Except String ONodeList
  | .nil => .ok .nil
  | .cons c cs => do
    let a ← walkNode c
    let b ← walkChildren cs
    .ok (a.append b)

/-- The mrow resolver's `for` loop over the row's children. -/
def mrowLoop : ElemList → MrowState → Except String MrowState
  | .nil, st => .ok st
  | .cons c cs, st => do
    let st' ← mrowStep c (walkNode c) st
    mrowLoop cs st'

/-- The `mtable` row mapping: an `mtr` child contributes its mapped
cells, any other child an empty row. -/
def mapRows : ElemList → Except String MRowList
  | .nil => .ok .nil
  | .cons (.mk t _ _ cs) rest => do
    let row ← (if asciiToLower t == "mtr" then mapCells cs else pure MCellList.nil)
    let rows ← mapRows rest
    .ok (.cons row rows)

/-- The `mtr` cell mapping: an `mtd` cell contributes `walkNode(cell)`
(which falls into `walkNode`'s default branch and flattens the cell's
children), any other child an empty cell. -/
def mapCells : ElemList → Except String MCellList
  | .nil => .ok .nil
  | .cons cell rest => do
    let c ← (if asciiToLower cell.tag == "mtd" then walkNode cell else pure ONodeList.nil)
    let cs ← mapCells rest
    .ok (.cons c cs)

end

/-- The outcome of the external `DOMParser`/`querySelector` steps of
`mathmlToDocx` (source lines 208–230), which are browser APIs outside
this repository: a `parsererror` element present, no `math` element, or
a successfully selected root element (after the `semantics`/`annotation`
handling). -/
inductive ParseOutcome where
  | parseError
  | noMath
  | parsed (root : Elem)

/-- `mathmlToDocx` over the parse outcome: parse failures and missing
`math` elements return the empty sequence; otherwise the root is walked
(and any exception of the walk escapes, since `mathmlToDocx` has no
`try`/`catch`). -/
def mathmlToDocx : ParseOutcome → Except String ONodeList
  | .parseError => .ok .nil
  | .noMath => .ok .nil
  | .parsed root => walkNode root

/-! ### Definitions used by the theorems -/

/-- An `<mi>` leaf. -/
def elMi (s : String) : Elem := .mk "mi" [] s .nil

/-- An `<mn>` leaf. -/
def elMn (s : String) : Elem := .mk "mn" [] s .nil

/-- An `<mo>` leaf. -/
def elMo (s : String) : Elem := .mk "mo" [] s .nil

/-- An `<mrow>` wrapper. -/
def elMrow (cs : List Elem) : Elem := .mk "mrow" [] "" (elist cs)

/-- An `<msubsup>` with the given base character (as an `<mo>`) and
`<mn>` limits, as KaTeX produces for `\int_a^b` in inline mode. -/
def elIntSubSup (base lo hi : String) : Elem :=
  .mk "msubsup" [] "" (elist [elMo base, elMn lo, elMn hi])

/-- Spec-side helper, from the spec's description of the zero-width
placeholder: drop zero-width-space runs from a node list (the spec
treats an N-ary body holding only the placeholder as empty, so the
"content" of a body is its non-placeholder part). -/
def nonPlaceholder : ONodeList → ONodeList
  | .nil => .nil
  | .cons (.run t) tl =>
    if t == zwsp then nonPlaceholder tl else .cons (.run t) (nonPlaceholder tl)
  | .cons n tl => .cons n (nonPlaceholder tl)

mutual

/-- Does a run with text `s` occur anywhere in the output node
(including inside all structural slots)?  Used to state that an
unmatched fence character does *not* survive as ordinary content. -/
def occursRun (s : String) : ONode → Bool
  | .run t => t == s
  | .frac a b => occursRunL s a || occursRunL s b
  | .supScr a b => occursRunL s a || occursRunL s b
  | .subScr a b => occursRunL s a || occursRunL s b
  | .subSupScr a b c => occursRunL s a || occursRunL s b || occursRunL s c
  | .radical a => occursRunL s a
  | .radicalDeg a b => occursRunL s a || occursRunL s b
  | .limitUpper a b => occursRunL s a || occursRunL s b
  | .limitLower a b => occursRunL s a || occursRunL s b
  | .accent a _ => occursRunL s a
  | .nary _ _ a b c => occursRunL s a || occursRunL s b || occursRunL s c
  | .delim _ _ a => occursRunL s a
  | .matrix rows => occursRunR s rows

def occursRunL (s : String) : ONodeList → Bool
  | .nil => false
  | .cons n tl => occursRun s n || occursRunL s tl

def occursRunC (s : String) : MCellList → Bool
  | .nil => false
  | .cons c tl => occursRunL s c || occursRunC s tl

def occursRunR (s : String) : MRowList → Bool
  | .nil => false
  | .cons r tl => occursRunC s r || occursRunR s tl

end

/-- Is the output node a `MathAccent`?  (for stating what a walk result
is *not*). -/
def isAccentNode : ONode → Bool
  | .accent _ _ => true
  | _ => false

/-- Every ASCII letter and digit (the "ordinary letters or digits" of
the classifier claims). -/
def alnumString : String :=
  "ABCDEFGHIJKLMNOPQRSTUVWXYZabcdefghijklmnopqrstuvwxyz0123456789"

/-! ### Helper lemmas -/

/-- Characters with equal codepoints are equal. -/
theorem char_eq_of_toNat (c d : Char) (h : c.toNat = d.toNat) : c = d :=
  Char.ext (UInt32.ext (by simpa [Char.toNat] using h))

/-- A character whose codepoint matches a list member is contained in
the list. -/
theorem contains_of_mem_toNat {c : Char} {l : List Char}
    (h : ∃ d ∈ l, c.toNat = d.toNat) : l.contains c = true := by
  obtain ⟨d, hd, he⟩ := h
  rw [char_eq_of_toNat c d he]
  exact List.elem_eq_true_of_mem hd

@[simp]
theorem except_bind_ok {α β : Type} (a : α) (f : α → Except String β) :
    (Except.ok a >>= f) = f a := rfl

@[simp]
theorem except_bind_err {α β : Type} (e : String) (f : α → Except String β) :
    ((Except.error e : Except String α) >>= f) = Except.error e := rfl

/-- `appendToContext` with a trailing `MathNary`: the item is absorbed
into the trailing operator no matter what its base already holds. -/
theorem appendToContext_trailing_nary (c : String) (l : LimLoc)
    (s p body : ONodeList) (item : ONode) :
    ∀ pre : ONodeList,
      appendToContext (pre.push (.nary c l s p body)) item
        = pre.push (.nary c l s p (naryBodyAppend body item))
  | .nil => rfl
  | .cons _ .nil => rfl
  | .cons x (.cons y tl) =>
    congrArg (ONodeList.cons x)
      (appendToContext_trailing_nary c l s p body item (.cons y tl))

/-- `naryBodyAppend` with a trailing inner `MathNary`: the dive
continues into the deepest trailing operator no matter what else the
base holds. -/
theorem naryBodyAppend_trailing_nary (c : String) (l : LimLoc)
    (s p b2 : ONodeList) (item : ONode) :
    ∀ bs : ONodeList,
      naryBodyAppend (bs.push (.nary c l s p b2)) item
        = bs.push (.nary c l s p (naryBodyAppend b2 item))
  | .nil => rfl
  | .cons _ .nil => rfl
  | .cons x (.cons y tl) =>
    congrArg (ONodeList.cons x)
      (naryBodyAppend_trailing_nary c l s p b2 item (.cons y tl))

/-! ### Claim theorems -/

/-- Claim C1 (code bug): the spec asserts that a well-nested bracket row
such as `(a)`, `[a(b)c]` or `{a}` resolves to exactly one top-level
Delimiter wrapping the walked inner content.  The code instead throws:
closing a fence calls `walkChildren` on the frame's accumulated children,
which are already docx output components without a `tagName`, so every
matched pair with non-empty inner content raises a `TypeError`.  This
theorem evaluates the walk at the three spec examples. -/
theorem c1_wellNested_rows_throw :
    walkNode (elMrow [elMo "(", elMi "a", elMo ")"])
      = .error "TypeError: node.tagName is undefined"
    ∧ walkNode (elMrow [elMo "[", elMi "a", elMo "(", elMi "b", elMo ")",
        elMi "c", elMo "]"])
      = .error "TypeError: node.tagName is undefined"
    ∧ walkNode (elMrow [elMo "\x7b", elMi "a", elMo "\x7d"])
      = .error "TypeError: node.tagName is undefined" :=
  ⟨rfl, rfl, rfl⟩

/-- Claim C2 (code bug): the spec asserts `mathmlToDocx` never lets an
exception escape: parse failures yield `[]`, and every parsed input
completes the walk.  The first two conjuncts (the parse-failure paths)
hold, but the third shows a parsed `<math><mrow>(a)</mrow></math>`
document making the walk throw a `TypeError` through `mathmlToDocx`,
which has no `try`/`catch`. -/
theorem c2_mathmlToDocx_throws_on_parsed_input :
    mathmlToDocx .parseError = .ok .nil
    ∧ mathmlToDocx .noMath = .ok .nil
    ∧ mathmlToDocx (.parsed (.mk "math" [] ""
        (elist [elMrow [elMo "(", elMi "a", elMo ")"]])))
      = .error "TypeError: node.tagName is undefined" :=
  ⟨rfl, rfl, rfl⟩

/-- Claim C3 (confirmed): a row of an integral-family `msubsup` N-ary
operator followed by the two non-fence siblings `f` and `dx` produces a
single `MathNary` node whose base contains the walked `f` and `dx` in
order (after the zero-width placeholder the constructor installs), not
three sibling nodes.  General over the whole integral character class
and over the limit, identifier and text payloads. -/
theorem c3_nary_absorption (lo hi fs : String) (bc : Char)
    (hbc : bc ∈ integralChars) :
    walkNode (elMrow [elIntSubSup (String.singleton bc) lo hi, elMi fs, elMo "dx"])
      = .ok (single (.nary (String.singleton bc) .subSup
          (single (.run lo)) (single (.run hi))
          (olist [.run zwsp, .run fs, .run "dx"]))) := by
  fin_cases hbc <;> rfl

/-- Witness for C3 at `\int_1^\infty f\,dx`. -/
theorem c3_nary_absorption_witness :
    '∫' ∈ integralChars
    ∧ walkNode (elMrow [elIntSubSup (String.singleton '∫') "1" "∞", elMi "f", elMo "dx"])
      = .ok (single (.nary (String.singleton '∫') .subSup
          (single (.run "1")) (single (.run "∞"))
          (olist [.run zwsp, .run "f", .run "dx"]))) :=
  ⟨by decide, c3_nary_absorption "1" "∞" "f" '∫' (by decide)⟩

/-- Claim C4 (confirmed): a row of two consecutive integral N-ary
operators followed by an integrand absorbs the integrand into the
innermost (second) operator's base, and the first operator's base holds
the second operator as its sole content besides the zero-width
placeholder run (which `nonPlaceholder` strips, following the spec's
description of the placeholder state). -/
theorem c4_nested_integrals (lo1 hi1 lo2 hi2 fs : String) :
    walkNode (elMrow [elIntSubSup "∫" lo1 hi1, elIntSubSup "∫" lo2 hi2, elMi fs])
      = .ok (single (.nary "∫" .subSup (single (.run lo1)) (single (.run hi1))
          (olist [.run zwsp,
            .nary "∫" .subSup (single (.run lo2)) (single (.run hi2))
              (olist [.run zwsp, .run fs])])))
    ∧ nonPlaceholder
        (olist [.run zwsp,
          .nary "∫" .subSup (single (.run lo2)) (single (.run hi2))
            (olist [.run zwsp, .run fs])])
      = single (.nary "∫" .subSup (single (.run lo2)) (single (.run hi2))
          (olist [.run zwsp, .run fs])) :=
  ⟨rfl, rfl⟩

/-- Claim C6 (code bug): the spec asserts every still-open frame is
closed at end of row into a Delimiter with the frame's open marker and
an empty close marker (the cases-style row being the example).  The
end-of-row loop indeed builds that delimiter, but it first calls
`walkChildren` on the frame's accumulated output components, so a
cases-style row with content (`{x`) throws a `TypeError`; only a
childless open fence (second conjunct) survives to produce the
described Delimiter. -/
theorem c6_unclosed_frame_throws :
    walkNode (elMrow [elMo "\x7b", elMi "x"])
      = .error "TypeError: node.tagName is undefined"
    ∧ walkNode (elMrow [elMo "\x7b"])
      = .ok (single (.delim "\x7b" "" .nil)) :=
  ⟨rfl, rfl⟩

/-- Claim C10 (confirmed): N-ary absorption during row resolution is
unconditional.  Whatever a trailing `MathNary`'s base already holds —
placeholder or real content — `appendToContext` sends the next item into
it, and the dive continues into the deepest trailing `MathNary` of the
base chain (this is the same function used when a closed Delimiter is
attached at that level).  The third conjunct shows a row continuing to
absorb after real content: `∫_1^2`, then `f`, then `g`. -/
theorem c10_unconditional_absorption :
    (∀ (c : String) (l : LimLoc) (s p body : ONodeList) (item : ONode)
       (pre : ONodeList),
       appendToContext (pre.push (.nary c l s p body)) item
         = pre.push (.nary c l s p (naryBodyAppend body item)))
    ∧ (∀ (c : String) (l : LimLoc) (s p b2 : ONodeList) (item : ONode)
       (bs : ONodeList),
       naryBodyAppend (bs.push (.nary c l s p b2)) item
         = bs.push (.nary c l s p (naryBodyAppend b2 item)))
    ∧ walkNode (elMrow [elIntSubSup "∫" "1" "2", elMi "f", elMi "g"])
      = .ok (single (.nary "∫" .subSup (single (.run "1")) (single (.run "2"))
          (olist [.run zwsp, .run "f", .run "g"]))) :=
  ⟨fun c l s p body item pre => appendToContext_trailing_nary c l s p body item pre,
   fun c l s p b2 item bs => naryBodyAppend_trailing_nary c l s p b2 item bs,
   rfl⟩

@[simp]
theorem except_pure {α : Type} (a : α) : (pure a : Except String α) = .ok a := rfl

/-- Claim C5 counterexample: `(` then `]` — a closing fence pairing with
no frame on the stack.  The claim says the candidate is treated as
ordinary content appended to the current frame; the code instead pops
the top frame and uses the unmatched character as that Delimiter's close
marker, so no run with text `]` occurs anywhere in the output. -/
theorem c5_unmatched_close_counterexample :
    walkNode (elMrow [elMo "(", elMo "]"])
      = .ok (single (.delim "(" "]" .nil))
    ∧ occursRunL "]" (single (.delim "(" "]" .nil)) = false :=
  ⟨rfl, rfl⟩

/-- Claim C5 amended: an unmatched close with an *empty* stack is walked
and appended to the top-level result as ordinary content (first
conjunct, for every closer character and any preceding content).  With a
*non-empty* stack in which no frame pairs with the closer, the top frame
is instead closed with the unmatched character as its close marker
(second conjunct) — and if that frame has accumulated content, the close
throws (third conjunct). -/
theorem c5_unmatched_close_amended :
    (∀ (s cl : String), cl ∈ [")", "]", "\x7d", "⟩"] →
       walkNode (elMrow [elMi s, elMo cl]) = .ok (olist [.run s, .run cl]))
    ∧ walkNode (elMrow [elMo "(", elMo "]"])
      = .ok (single (.delim "(" "]" .nil))
    ∧ walkNode (elMrow [elMo "(", elMi "a", elMo "]"])
      = .error "TypeError: node.tagName is undefined" :=
  ⟨fun s cl hcl => by fin_cases hcl <;> rfl, rfl, rfl⟩

/-- Witness for the amended C5 at content `a` and closer `]`. -/
theorem c5_unmatched_close_amended_witness :
    walkNode (elMrow [elMi "a", elMo "]"]) = .ok (olist [.run "a", .run "]"]) :=
  c5_unmatched_close_amended.1 "a" "]" (by decide)

/-- Claim C7 (confirmed): `isIntegral` accepts every string containing a
codepoint in `U+222B – U+222F` or `U+2230 – U+2233`, `isSum` accepts
every string containing one of `U+2211`, `U+220F`, `U+2210`,
`U+22C0 – U+22C3`, `U+2A00`, `U+2A01`, `U+2A02`, `U+2A04`, `U+2A06`,
and both reject every ordinary (ASCII) letter and digit. -/
theorem c7_classifier_correctness :
    (∀ s : String,
       (∃ c ∈ s.data, (0x222B ≤ c.toNat ∧ c.toNat ≤ 0x222F)
          ∨ (0x2230 ≤ c.toNat ∧ c.toNat ≤ 0x2233)) →
       isIntegral s = true)
    ∧ (∀ s : String,
       (∃ c ∈ s.data, c.toNat = 0x2211 ∨ c.toNat = 0x220F ∨ c.toNat = 0x2210
          ∨ (0x22C0 ≤ c.toNat ∧ c.toNat ≤ 0x22C3) ∨ c.toNat = 0x2A00
          ∨ c.toNat = 0x2A01 ∨ c.toNat = 0x2A02 ∨ c.toNat = 0x2A04
          ∨ c.toNat = 0x2A06) →
       isSum s = true)
    ∧ (∀ c : Char, c ∈ alnumString.data →
       isIntegral (String.singleton c) = false ∧ isSum (String.singleton c) = false) := by
  refine ⟨?_, ?_, ?_⟩
  · rintro s ⟨c, hc, hr⟩
    unfold isIntegral
    rw [List.any_eq_true]
    refine ⟨c, hc, contains_of_mem_toNat ?_⟩
    simp only [integralChars, List.mem_cons, List.not_mem_nil, or_false,
      exists_eq_or_imp, exists_eq_left]
    simp only [show ('∫').toNat = 0x222B from rfl, show ('∬').toNat = 0x222C from rfl,
      show ('∭').toNat = 0x222D from rfl, show ('∮').toNat = 0x222E from rfl,
      show ('∯').toNat = 0x222F from rfl, show ('∰').toNat = 0x2230 from rfl,
      show ('∱').toNat = 0x2231 from rfl, show ('∲').toNat = 0x2232 from rfl,
      show ('∳').toNat = 0x2233 from rfl]
    omega
  · rintro s ⟨c, hc, hr⟩
    unfold isSum
    rw [List.any_eq_true]
    refine ⟨c, hc, contains_of_mem_toNat ?_⟩
    simp only [sumChars, List.mem_cons, List.not_mem_nil, or_false,
      exists_eq_or_imp, exists_eq_left]
    simp only [show ('∑').toNat = 0x2211 from rfl, show ('∏').toNat = 0x220F from rfl,
      show ('∐').toNat = 0x2210 from rfl, show ('⋀').toNat = 0x22C0 from rfl,
      show ('⋁').toNat = 0x22C1 from rfl, show ('⋂').toNat = 0x22C2 from rfl,
      show ('⋃').toNat = 0x22C3 from rfl, show ('⨀').toNat = 0x2A00 from rfl,
      show ('⨁').toNat = 0x2A01 from rfl, show ('⨂').toNat = 0x2A02 from rfl,
      show ('⨄').toNat = 0x2A04 from rfl, show ('⨆').toNat = 0x2A06 from rfl]
    omega
  · decide

/-- Witness for C7: `∫` inside a longer string, `∑` alone, and the
letter `a`. -/
theorem c7_classifier_correctness_witness :
    isIntegral "x∫y" = true ∧ isSum "∑" = true
    ∧ (isIntegral (String.singleton 'a') = false ∧ isSum (String.singleton 'a') = false) :=
  ⟨c7_classifier_correctness.1 "x∫y" ⟨'∫', by decide, by decide⟩,
   c7_classifier_correctness.2.1 "∑" ⟨'∑', by decide, by decide⟩,
   c7_classifier_correctness.2.2 'a' (by decide)⟩

/-- Claim C8 counterexample: an `mover` whose second child carries the
explicit `accent="true"` marker — but is an `mi`, not an `mo` — yields a
`MathLimitUpper`, not a `MathAccent`, although its character `→` is even
in the accent set.  The claim's "yields an Accent node regardless of the
character" therefore fails when the marked child is not an `mo`. -/
theorem c8_marker_nonMo_counterexample :
    walkNode (.mk "mover" [] ""
        (elist [elMi "x", .mk "mi" [("accent", "true")] "→" .nil]))
      = .ok (single (.limitUpper (single (.run "x")) (single (.run "→"))))
    ∧ isAccentNode (.limitUpper (single (.run "x")) (single (.run "→"))) = false :=
  ⟨rfl, rfl⟩

/-- Claim C8 amended: for an `mover` node with at least two children,
accent detection applies only when the second child is an `mo` element:
then the explicit `accent="true"` marker forces a `MathAccent` regardless
of the character (first conjunct), a character satisfying `isAccentChar`
forces a `MathAccent` even without the marker (second conjunct), and
otherwise a `MathLimitUpper` results (third conjunct); when the second
child is not an `mo`, the result is a `MathLimitUpper` regardless of
marker and character (fourth conjunct). -/
theorem c8_accent_detection_amended :
    (∀ (a : List (String × String)) (t : String) (b o : Elem) (rest : ElemList)
       (bs : ONodeList),
       (asciiToLower o.tag == "mo") = true →
       (getAttrE o "accent" == some "true") = true →
       walkNode b = .ok bs →
       walkNode (.mk "mover" a t (.cons b (.cons o rest)))
         = .ok (single (.accent bs (textContent o))))
    ∧ (∀ (a : List (String × String)) (t : String) (b o : Elem) (rest : ElemList)
       (bs : ONodeList),
       (asciiToLower o.tag == "mo") = true →
       isAccentChar (textContent o) = true →
       walkNode b = .ok bs →
       walkNode (.mk "mover" a t (.cons b (.cons o rest)))
         = .ok (single (.accent bs (textContent o))))
    ∧ (∀ (a : List (String × String)) (t : String) (b o : Elem) (rest : ElemList)
       (bs ls : ONodeList),
       (asciiToLower o.tag == "mo") = true →
       (getAttrE o "accent" == some "true") = false →
       isAccentChar (textContent o) = false →
       walkNode b = .ok bs → walkNode o = .ok ls →
       walkNode (.mk "mover" a t (.cons b (.cons o rest)))
         = .ok (single (.limitUpper bs ls)))
    ∧ (∀ (a : List (String × String)) (t : String) (b o : Elem) (rest : ElemList)
       (bs ls : ONodeList),
       (asciiToLower o.tag == "mo") = false →
       walkNode b = .ok bs → walkNode o = .ok ls →
       walkNode (.mk "mover" a t (.cons b (.cons o rest)))
         = .ok (single (.limitUpper bs ls))) := by
  refine ⟨?_, ?_, ?_, ?_⟩ <;> intro a t b o rest bs
  case _ =>
    intro h1 h2 hb
    have e : walkNode (.mk "mover" a t (.cons b (.cons o rest)))
        = (if (asciiToLower o.tag == "mo" &&
                (getAttrE o "accent" == some "true" || isAccentChar (textContent o)) : Bool)
           then (walkNode b >>= fun n => pure (single (.accent n (textContent o))))
           else (walkNode b >>= fun n => walkNode o >>= fun l =>
                  pure (single (.limitUpper n l)))) := rfl
    rw [e, h1, h2]
    simp [hb]
  case _ =>
    intro h1 h2 hb
    have e : walkNode (.mk "mover" a t (.cons b (.cons o rest)))
        = (if (asciiToLower o.tag == "mo" &&
                (getAttrE o "accent" == some "true" || isAccentChar (textContent o)) : Bool)
           then (walkNode b >>= fun n => pure (single (.accent n (textContent o))))
           else (walkNode b >>= fun n => walkNode o >>= fun l =>
                  pure (single (.limitUpper n l)))) := rfl
    rw [e, h1, h2]
    simp [hb]
  case _ =>
    intro ls h1 h2 h3 hb ho
    have e : walkNode (.mk "mover" a t (.cons b (.cons o rest)))
        = (if (asciiToLower o.tag == "mo" &&
                (getAttrE o "accent" == some "true" || isAccentChar (textContent o)) : Bool)
           then (walkNode b >>= fun n => pure (single (.accent n (textContent o))))
           else (walkNode b >>= fun n => walkNode o >>= fun l =>
                  pure (single (.limitUpper n l)))) := rfl
    rw [e, h1, h2, h3]
    simp [hb, ho]
  case _ =>
    intro ls h1 hb ho
    have e : walkNode (.mk "mover" a t (.cons b (.cons o rest)))
        = (if (asciiToLower o.tag == "mo" &&
                (getAttrE o "accent" == some "true" || isAccentChar (textContent o)) : Bool)
           then (walkNode b >>= fun n => pure (single (.accent n (textContent o))))
           else (walkNode b >>= fun n => walkNode o >>= fun l =>
                  pure (single (.limitUpper n l)))) := rfl
    rw [e, h1]
    simp [hb, ho]

/-- Witness for the amended C8: an `mo` child with the explicit marker
and the non-accent character `X` still yields an Accent. -/
theorem c8_accent_detection_amended_witness :
    walkNode (.mk "mover" [] ""
        (elist [elMi "y", .mk "mo" [("accent", "true")] "X" .nil]))
      = .ok (single (.accent (single (.run "y")) "X")) :=
  c8_accent_detection_amended.1 [] "" (elMi "y")
    (.mk "mo" [("accent", "true")] "X" .nil) .nil (single (.run "y")) rfl rfl rfl

/-- Claim C9 counterexample: a node with an unrecognized tag
(`mpadded`) and non-empty text but no element children falls into the
fail-open default branch and produces the *empty* output list, so a
non-empty input node can produce an empty result. -/
theorem c9_nonempty_input_empty_output_counterexample :
    walkNode (.mk "mpadded" [] "x" .nil) = .ok .nil
    ∧ textContent (.mk "mpadded" [] "x" .nil) = "x"
    ∧ ("x" : String) ≠ "" :=
  ⟨rfl, rfl, by decide⟩

/-- Claim C9 amended: the non-emptiness invariant holds for the
structural constructors — an N-ary operator built with an empty body
receives a zero-width-space placeholder run (first conjunct), a token
node always yields exactly one run (second conjunct), and a successful
fraction walk yields exactly one node (third conjunct) — but nodes
dispatched to the fail-open default branch (unknown tags, and likewise
empty row/style groups) flatten to their walked element children and may
return the empty list even when the node's text is non-empty. -/
theorem c9_nonempty_output_amended :
    (∀ (c : String) (loc : LimLoc) (sb sp : ONodeList),
       naryBody (mathNary c loc sb sp .nil) = single (.run zwsp))
    ∧ (∀ (a : List (String × String)) (t : String) (cs : ElemList),
       walkNode (.mk "mi" a t cs)
         = .ok (single (.run (textContent (.mk "mi" a t cs)))))
    ∧ (∀ (a : List (String × String)) (t : String) (num den : Elem)
       (rest : ElemList) (ns : ONodeList),
       walkNode (.mk "mfrac" a t (.cons num (.cons den rest))) = .ok ns →
       ∃ x, ns = single x) := by
  refine ⟨fun c loc sb sp => rfl, fun a t cs => rfl, ?_⟩
  intro a t num den rest ns h
  have e : walkNode (.mk "mfrac" a t (.cons num (.cons den rest)))
      = (walkNode num >>= fun n => walkNode den >>= fun d =>
          pure (single (.frac n d))) := rfl
  rw [e] at h
  cases h1 : walkNode num with
  | error e1 => rw [h1] at h; simp at h
  | ok n =>
    rw [h1] at h
    cases h2 : walkNode den with
    | error e2 => rw [h2] at h; simp at h
    | ok d =>
      rw [h2] at h
      simp at h
      exact ⟨.frac n d, h.symm⟩

/-- Witness for the amended C9 at `\frac{1}{2}`. -/
theorem c9_nonempty_output_amended_witness :
    ∃ x, single (ONode.frac (single (.run "1")) (single (.run "2"))) = single x :=
  c9_nonempty_output_amended.2.2 [] "" (elMn "1") (elMn "2") .nil
    (single (.frac (single (.run "1")) (single (.run "2")))) rfl
